import Mathlib

/-!
Verification of the semantic-version bump engine implemented in the
repository's version-management script (`scripts/version.js`).

The script is embedded shallowly:

* `parseVersion` models `parseVersion` (the anchored JavaScript regex
  match `(\d+)\.(\d+)\.(\d+)(?:-(.+))?` followed by `parseInt` on the
  numeric groups);
* `formatVersion` models `formatVersion` (template-literal rendering with
  JavaScript truthiness on the `prerelease` field);
* `bumpStruct` models the `switch` inside `bumpVersion`;
* `jsParseInt` models the JavaScript `parseInt(string)` builtin as used on
  the second component of a prerelease tag;
* `matchLenAt` / `findMatch` / `updateIndexTs` model the first-match
  rewrite of `/return\s+["'][\d\.]+([-\w\.]*)?["'];/` in `src/index.ts`;
* `createGitTag` models the sequence of shell commands issued by
  `createGitTag`;
* `mainModel` models the orchestration in `main` over an abstract file
  system and git state.

JavaScript numbers are modelled by `Nat`/`Int` (the script only ever
produces integer values and the claims do not involve float overflow);
strings are Lean `String`s viewed as their lists of characters.
-/

namespace VersionScript

/-- The characters matched by the JavaScript regex class `\d`
(ASCII digits only), enumerated so proofs can case on them. -/
def isDigitCh (c : Char) : Bool :=
  c = '0' || c = '1' || c = '2' || c = '3' || c = '4' ||
  c = '5' || c = '6' || c = '7' || c = '8' || c = '9'

/-- The characters a JavaScript regex `.` does NOT match: the four
ECMAScript line terminators. -/
def isLineTerminator (c : Char) : Bool :=
  c = '\n' || c = '\r' || c = '\u2028' || c = '\u2029'

/-- ASCII members of JavaScript whitespace (`\s`, and the characters
trimmed by `parseInt`); the claims only involve these. -/
def isJsSpace (c : Char) : Bool :=
  c = ' ' || c = '\t' || c = '\n' || c = '\r' || c = '\x0b' || c = '\x0c'

/-- Numeric value of an ASCII digit character. -/
def digitVal (c : Char) : Nat := c.toNat - 48

/-- The decimal digit character for a value below ten. -/
def digitChar : Nat → Char
  | 0 => '0' | 1 => '1' | 2 => '2' | 3 => '3' | 4 => '4'
  | 5 => '5' | 6 => '6' | 7 => '7' | 8 => '8' | _ => '9'

/-- Value of a string of decimal digits, as computed by JavaScript
`parseInt` on an all-digit group. -/
def digitsToNat (ds : List Char) : Nat :=
  ds.foldl (fun n c => 10 * n + digitVal c) 0

/-- Fuel-driven decimal rendering of a natural number (structural so the
kernel can evaluate it); `natToDigits` supplies sufficient fuel. -/
def natToDigitsAux : Nat → Nat → List Char
  | 0, _ => []
  | f + 1, n =>
    if n < 10 then [digitChar n]
    else natToDigitsAux f (n / 10) ++ [digitChar (n % 10)]

/-- Decimal digit list of a natural number, exactly what a JavaScript
template literal renders for a non-negative integer. -/
def natToDigits (n : Nat) : List Char := natToDigitsAux (n + 1) n

/-- Decimal string of a natural number. -/
def natToString (n : Nat) : String := String.mk (natToDigits n)

/-- JavaScript `Number.prototype.toString` restricted to integers. -/
def intToString (i : Int) : String :=
  if i < 0 then "-" ++ natToString i.natAbs else natToString i.toNat

/-- The structured record produced by the script's `parseVersion`:
fields `major`, `minor`, `patch` and the optional `prerelease` string
(`null` in the script is `none`). -/
structure Version where
  major : Nat
  minor : Nat
  patch : Nat
  prerelease : Option String
deriving DecidableEq, Repr

/-- Matching of the script's anchored regex
`(\d+)\.(\d+)\.(\d+)(?:-(.+))?` against the whole character list,
returning the four capture groups.  Greedy `\d+` is maximal munch: the
characters that may follow each digit group (a dot, a hyphen or the end)
are not digits, so no backtracking is possible. -/
def parseParts (cs : List Char) :
    Option (List Char × List Char × List Char × Option (List Char)) :=
  let d1 := cs.takeWhile isDigitCh
  let r1 := cs.dropWhile isDigitCh
  if d1.isEmpty then none else
  match r1 with
  | '.' :: r2 =>
    let d2 := r2.takeWhile isDigitCh
    let r3 := r2.dropWhile isDigitCh
    if d2.isEmpty then none else
    match r3 with
    | '.' :: r4 =>
      let d3 := r4.takeWhile isDigitCh
      let r5 := r4.dropWhile isDigitCh
      if d3.isEmpty then none else
      match r5 with
      | [] => some (d1, d2, d3, none)
      | '-' :: rest =>
        if rest.isEmpty then none
        else if rest.all (fun c => !isLineTerminator c) then
          some (d1, d2, d3, some rest)
        else none
      | _ => none
    | _ => none
  | _ => none

/-- The script's `parseVersion`: on a regex match, `parseInt` of the three
numeric groups and the verbatim prerelease capture; on a failed match the
script throws `Invalid version format` (modelled as `none`, the message is
materialised in `mainModel`). -/
def parseVersion (s : String) : Option Version :=
  match parseParts s.data with
  | some (d1, d2, d3, p) =>
    some ⟨digitsToNat d1, digitsToNat d2, digitsToNat d3, p.map String.mk⟩
  | none => none

/-- The script's `formatVersion`: renders `major.minor.patch` and appends
`-prerelease` when `prerelease` is truthy (JavaScript truthiness: `null`
and the empty string are falsy). -/
def formatVersion (v : Version) : String :=
  let base := natToString v.major ++ "." ++ natToString v.minor ++ "." ++ natToString v.patch
  match v.prerelease with
  | some p => if p = "" then base else base ++ "-" ++ p
  | none => base

/-- Hexadecimal digit value, for `parseInt`'s `0x` auto-detection. -/
def hexVal (c : Char) : Option Nat :=
  if isDigitCh c then some (digitVal c)
  else if 'a' ≤ c && c ≤ 'f' then some (c.toNat - 87)
  else if 'A' ≤ c && c ≤ 'F' then some (c.toNat - 55)
  else none

/-- JavaScript `parseInt(string)` with the radix argument omitted: trim
leading whitespace, read an optional sign, auto-detect a `0x`/`0X` prefix
(hexadecimal) and otherwise parse the longest leading run of decimal
digits; an empty digit run is `NaN` (`none`). -/
def jsParseInt (s : String) : Option Int :=
  let cs := s.data.dropWhile isJsSpace
  let signed : Int × List Char :=
    match cs with
    | '-' :: r => (-1, r)
    | '+' :: r => (1, r)
    | _ => (1, cs)
  let based : Nat × List Char :=
    match signed.2 with
    | '0' :: 'x' :: r => (16, r)
    | '0' :: 'X' :: r => (16, r)
    | _ => (10, signed.2)
  if based.1 = 16 then
    let ds := based.2.takeWhile (fun c => (hexVal c).isSome)
    if ds.isEmpty then none
    else some (signed.1 * (ds.foldl (fun n c => 16 * n + (hexVal c).getD 0) 0 : Nat))
  else
    let ds := based.2.takeWhile isDigitCh
    if ds.isEmpty then none
    else some (signed.1 * (digitsToNat ds : Nat))

/-- The closed set of bump kinds the script's `switch` handles. -/
inductive BumpType
  | major | minor | patch | premajor | preminor | prepatch | prerelease
deriving DecidableEq, Repr

/-- JavaScript `String.prototype.split('.')` on a character list: every
dot separates, the empty string splits to one empty part, and leading,
trailing or doubled dots produce empty parts. -/
def splitOnDot : List Char → List (List Char)
  | [] => [[]]
  | '.' :: rest => [] :: splitOnDot rest
  | c :: rest =>
    match splitOnDot rest with
    | h :: t => (c :: h) :: t
    | [] => [[c]]

/-- The `case 'prerelease'` body for a truthy existing prerelease string:
split on every dot; when there are exactly two parts and `parseInt` of the
second is not `NaN`, replace the second part by the incremented integer
and re-join, otherwise reset to the seed `alpha.0`. -/
def bumpPrereleaseStr (p : String) : String :=
  match splitOnDot p.data with
  | [a, b] =>
    match jsParseInt (String.mk b) with
    | some n => String.mk a ++ "." ++ intToString (n + 1)
    | none => "alpha.0"
  | _ => "alpha.0"

/-- The `switch` inside the script's `bumpVersion`, acting on the parsed
record.  In the `prerelease` arm a falsy prerelease (absent, or the empty
string) takes the `else` branch that increments `patch`; a truthy one is
rewritten by `bumpPrereleaseStr` with `major`, `minor`, `patch` untouched. -/
def bumpStruct (v : Version) : BumpType → Version
  | .major => ⟨v.major + 1, 0, 0, none⟩
  | .minor => ⟨v.major, v.minor + 1, 0, none⟩
  | .patch => ⟨v.major, v.minor, v.patch + 1, none⟩
  | .premajor => ⟨v.major + 1, 0, 0, some "alpha.0"⟩
  | .preminor => ⟨v.major, v.minor + 1, 0, some "alpha.0"⟩
  | .prepatch => ⟨v.major, v.minor, v.patch + 1, some "alpha.0"⟩
  | .prerelease =>
    match v.prerelease with
    | some p =>
      if p = "" then ⟨v.major, v.minor, v.patch + 1, some "alpha.0"⟩
      else ⟨v.major, v.minor, v.patch, some (bumpPrereleaseStr p)⟩
    | none => ⟨v.major, v.minor, v.patch + 1, some "alpha.0"⟩

/-- The bump-type strings `main` validates against. -/
def validBumpTypes : List String :=
  ["patch", "minor", "major", "prepatch", "preminor", "premajor", "prerelease"]

/-- The `switch` scrutinee: which `BumpType` a string selects. -/
def toBumpType : String → Option BumpType
  | "major" => some .major
  | "minor" => some .minor
  | "patch" => some .patch
  | "premajor" => some .premajor
  | "preminor" => some .preminor
  | "prepatch" => some .prepatch
  | "prerelease" => some .prerelease
  | _ => none

/-- The script's string-level `bumpVersion`: parse (throwing
`Invalid version format` on failure), apply the switch (throwing
`Invalid bump type` on an unknown kind), re-format. -/
def bumpVersionStr (current : String) (bt : String) : Except String String :=
  match parseVersion current with
  | none => .error ("Invalid version format: " ++ current)
  | some v =>
    match toBumpType bt with
    | none => .error ("Invalid bump type: " ++ bt)
    | some t => .ok (formatVersion (bumpStruct v t))

/-- JavaScript regex `\w`: ASCII letters, ASCII digits and underscore. -/
def isWordCh (c : Char) : Bool := c.isAlpha || isDigitCh c || c = '_'

/-- The class `[\d\.]` of the source-annotation regex. -/
def isDigitDot (c : Char) : Bool := isDigitCh c || c = '.'

/-- The class `[-\w\.]` of the source-annotation regex. -/
def isDashWordDot (c : Char) : Bool := c = '-' || isWordCh c || c = '.'

/-- The class `["']` of the source-annotation regex. -/
def isQuoteCh (c : Char) : Bool := c = '"' || c = '\''

/-- Length of the match of `/return\s+["'][\d\.]+([-\w\.]*)?["'];/` when it
matches at the head of the character list.  Each quantified class is
disjoint from the character that must follow it (a quote is not in `\s`,
`[\d\.]` or `[-\w\.]`), so greedy maximal munch is the unique match and no
backtracking arises. -/
def matchLenAt (cs : List Char) : Option Nat :=
  match cs with
  | 'r' :: 'e' :: 't' :: 'u' :: 'r' :: 'n' :: rest =>
    let ws := rest.takeWhile isJsSpace
    let r1 := rest.dropWhile isJsSpace
    if ws.isEmpty then none else
    match r1 with
    | q1 :: r2 =>
      if isQuoteCh q1 then
        let dd := r2.takeWhile isDigitDot
        let r3 := r2.dropWhile isDigitDot
        if dd.isEmpty then none else
        let dw := r3.takeWhile isDashWordDot
        let r4 := r3.dropWhile isDashWordDot
        match r4 with
        | q2 :: ';' :: _ =>
          if isQuoteCh q2 then
            some (6 + ws.length + 1 + dd.length + dw.length + 2)
          else none
        | _ => none
      else none
    | [] => none
  | _ => none

/-- Leftmost match of the source-annotation regex: the first index at
which `matchLenAt` succeeds, with the match length. -/
def findMatch : List Char → Option (Nat × Nat)
  | [] => none
  | c :: cs =>
    match matchLenAt (c :: cs) with
    | some len => some (0, len)
    | none => (findMatch cs).map (fun p => (p.1 + 1, p.2))

/-- The `content.replace(versionRegex, ...)` step of `main`: replace the
first match of the source-annotation regex by the canonical
`return "<newVersion>";`, or leave the content unchanged when the regex
does not match (`main` then skips the write, so the file keeps its bytes
either way). -/
def updateIndexTs (content : String) (newVersion : String) : String :=
  match findMatch content.data with
  | some (i, len) =>
    String.mk (content.data.take i ++ ("return \"" ++ newVersion ++ "\";").data
      ++ content.data.drop (i + len))
  | none => content

/-- Lifts `updateIndexTs` over an absent source file: when `src/index.ts`
does not exist, `main`'s `fs.existsSync` guard skips the step. -/
def updateIndexTsOpt (content : Option String) (newVersion : String) : Option String :=
  content.map (fun c => updateIndexTs c newVersion)

/-- The shell commands the script's `createGitTag` issues, in order. -/
def createGitTag (version : String) : List String :=
  ["git add package.json",
   "git commit -m \"chore: bump version to " ++ version ++ "\"",
   "git tag v" ++ version]

/-- Recognises a `git add` command and returns the staged path. -/
def gitAddArg (cs : List Char) : Option (List Char) :=
  match cs with
  | 'g' :: 'i' :: 't' :: ' ' :: 'a' :: 'd' :: 'd' :: ' ' :: rest => some rest
  | _ => none

/-- The paths staged by a command list: the arguments of its
`git add` commands. -/
def stagedPaths (cmds : List String) : List String :=
  cmds.filterMap (fun c => (gitAddArg c.data).map String.mk)

/-- The files and external state an invocation can observe or mutate: the
manifest (abstracted to its `version` field), the optional source file
`src/index.ts`, and the (trimmed) output of `git status --porcelain`
(`none` when git is unavailable). -/
structure World where
  manifestVersion : String
  indexTs : Option String
  gitStatus : Option String
deriving DecidableEq, Repr

/-- The command-line inputs `main` reads: the first positional argument
and the two flags. -/
structure Args where
  bumpType : Option String
  noGit : Bool
  dryRun : Bool
deriving DecidableEq, Repr

/-- Observable result of one run of `main`: the final file-system state,
the git commands issued, the process exit code, and the fatal error
message if one was reported. -/
structure Outcome where
  world : World
  gitCmds : List String
  exitCode : Nat
  error : Option String
deriving DecidableEq, Repr

/-- The script's `main`: help and `current` are report-only; an unknown
bump type exits 1; then the new version is computed (parse failure is
caught and exits 1 before any write); `--dry-run` returns before the git
check and the writes; otherwise `git status` is consulted (unless
`--no-git`), the manifest and the source annotation are rewritten, and on
a clean tree `createGitTag` runs. -/
def mainModel (args : Args) (w : World) : Outcome :=
  match args.bumpType with
  | none => ⟨w, [], 0, none⟩
  | some bt =>
    if bt = "help" then ⟨w, [], 0, none⟩
    else if bt = "current" then ⟨w, [], 0, none⟩
    else if bt ∈ validBumpTypes then
      match bumpVersionStr w.manifestVersion bt with
      | .error msg => ⟨w, [], 1, some msg⟩
      | .ok newVersion =>
        if args.dryRun then ⟨w, [], 0, none⟩
        else
          let statusCmds : List String :=
            if args.noGit then [] else ["git status --porcelain"]
          let canUseGit : Bool := !args.noGit && w.gitStatus == some ""
          let w1 : World :=
            { manifestVersion := newVersion,
              indexTs := updateIndexTsOpt w.indexTs newVersion,
              gitStatus := w.gitStatus }
          ⟨w1, statusCmds ++ (if canUseGit then createGitTag newVersion else []), 0, none⟩
    else ⟨w, [], 1, some ("Invalid bump type: " ++ bt)⟩

/-- Modelled from the spec: the grammar `\d+\.\d+\.\d+(-[^\s]+)?` that
section 4.1 asserts `parse` accepts exactly, with `[^\s]` read as any
character outside JavaScript whitespace.  This follows the spec's words
and is compared against `parseVersion`, which follows the code. -/
def specAccepts (s : String) : Bool :=
  let d1 := s.data.takeWhile isDigitCh
  let r1 := s.data.dropWhile isDigitCh
  if d1.isEmpty then false else
  match r1 with
  | '.' :: r2 =>
    let d2 := r2.takeWhile isDigitCh
    let r3 := r2.dropWhile isDigitCh
    if d2.isEmpty then false else
    match r3 with
    | '.' :: r4 =>
      let d3 := r4.takeWhile isDigitCh
      let r5 := r4.dropWhile isDigitCh
      if d3.isEmpty then false else
      match r5 with
      | [] => true
      | '-' :: rest => !rest.isEmpty && rest.all (fun c => !isJsSpace c)
      | _ => false
    | _ => false
  | _ => false

/-- The language `parseVersion` actually accepts, stated as a
decomposition: three non-empty all-digit groups separated by dots,
optionally followed by a hyphen and a non-empty suffix free of the four
ECMAScript line terminators (the characters the regex `.` cannot match). -/
def CodeGrammar (s : String) : Prop :=
  ∃ d1 d2 d3 suffix,
    s.data = d1 ++ '.' :: d2 ++ '.' :: d3 ++ suffix ∧
    d1 ≠ [] ∧ d2 ≠ [] ∧ d3 ≠ [] ∧
    (∀ c ∈ d1, isDigitCh c = true) ∧ (∀ c ∈ d2, isDigitCh c = true) ∧
    (∀ c ∈ d3, isDigitCh c = true) ∧
    (suffix = [] ∨ ∃ pre, suffix = '-' :: pre ∧ pre ≠ [] ∧
      ∀ c ∈ pre, isLineTerminator c = false)

/-- The shape test the script's `prerelease` arm performs on an existing
prerelease string: splitting on dots yields exactly two parts and
JavaScript `parseInt` of the second part is not `NaN`. -/
def TwoPartIntShape (p : String) : Prop :=
  ∃ a b, splitOnDot p.data = [a, b] ∧ (jsParseInt (String.mk b)).isSome = true

/-- Claim C2: the `major`, `minor` and `patch` kinds increment the
corresponding component, reset the lower ones, and clear the prerelease;
the `premajor`, `preminor` and `prepatch` kinds apply the same numeric
change and seed the prerelease with exactly `alpha.0`. -/
theorem claim_C2_bump_kinds (v : Version) :
    bumpStruct v .major = ⟨v.major + 1, 0, 0, none⟩ ∧
    bumpStruct v .minor = ⟨v.major, v.minor + 1, 0, none⟩ ∧
    bumpStruct v .patch = ⟨v.major, v.minor, v.patch + 1, none⟩ ∧
    bumpStruct v .premajor = ⟨v.major + 1, 0, 0, some "alpha.0"⟩ ∧
    bumpStruct v .preminor = ⟨v.major, v.minor + 1, 0, some "alpha.0"⟩ ∧
    bumpStruct v .prepatch = ⟨v.major, v.minor, v.patch + 1, some "alpha.0"⟩ :=
  ⟨rfl, rfl, rfl, rfl, rfl, rfl⟩

/-- Claim C1, counterexample: on version `1.0.0-beta` the prerelease
string is present but does not have the two-part shape (it splits into
one part), and the script resets the prerelease to `alpha.0` WITHOUT
incrementing `patch`; the claim demands `1.0.1-alpha.0`. -/
theorem claim_C1_counterexample :
    splitOnDot ("beta" : String).data = [['b', 'e', 't', 'a']] ∧
    bumpStruct ⟨1, 0, 0, some "beta"⟩ .prerelease = ⟨1, 0, 0, some "alpha.0"⟩ ∧
    bumpStruct ⟨1, 0, 0, some "beta"⟩ .prerelease ≠ ⟨1, 0, 1, some "alpha.0"⟩ := by
  decide

/-- Case analysis of the `prerelease` arm of the switch, shared by the
claims about it. -/
theorem bumpStruct_prerelease_spec (v : Version) :
    (v.prerelease = none →
      bumpStruct v .prerelease = ⟨v.major, v.minor, v.patch + 1, some "alpha.0"⟩) ∧
    (∀ p a b n, v.prerelease = some p → splitOnDot p.data = [a, b] →
      jsParseInt (String.mk b) = some n →
      bumpStruct v .prerelease =
        ⟨v.major, v.minor, v.patch, some (String.mk a ++ "." ++ intToString (n + 1))⟩) ∧
    (∀ p, v.prerelease = some p → p ≠ "" → ¬ TwoPartIntShape p →
      bumpStruct v .prerelease = ⟨v.major, v.minor, v.patch, some "alpha.0"⟩) := by
  refine ⟨fun h => by simp [bumpStruct, h], ?_, ?_⟩
  · intro p a b n hp hsplit hint
    have hpne : p ≠ "" := by
      intro he
      rw [he] at hsplit
      simp [splitOnDot] at hsplit
    simp only [bumpStruct, hp, if_neg hpne]
    simp [bumpPrereleaseStr, hsplit, hint]
  · intro p hp hpne hshape
    simp only [bumpStruct, hp, if_neg hpne]
    rcases hsplit : splitOnDot p.data with _ | ⟨a, _ | ⟨b, _ | _⟩⟩ <;>
      simp [bumpPrereleaseStr, hsplit]
    rcases hint : jsParseInt (String.mk b) with _ | n
    · simp
    · exact absurd ⟨a, b, hsplit, by simp [hint]⟩ hshape

/-- Claim C1, amended: with no prerelease the `prerelease` kind increments
`patch` and seeds `alpha.0`; with a prerelease whose dot-split has exactly
two parts and whose second part `parseInt`s to an integer, the integer is
incremented and the whole second part replaced, keeping
`(major, minor, patch)`; with a prerelease present but NOT of that shape,
the prerelease is reset to `alpha.0` and `(major, minor, patch)` is kept
unchanged (the patch increment of the original claim does not happen). -/
theorem claim_C1_amended (v : Version) :
    (v.prerelease = none →
      bumpStruct v .prerelease = ⟨v.major, v.minor, v.patch + 1, some "alpha.0"⟩) ∧
    (∀ p a b n, v.prerelease = some p → splitOnDot p.data = [a, b] →
      jsParseInt (String.mk b) = some n →
      bumpStruct v .prerelease =
        ⟨v.major, v.minor, v.patch, some (String.mk a ++ "." ++ intToString (n + 1))⟩) ∧
    (∀ p, v.prerelease = some p → p ≠ "" → ¬ TwoPartIntShape p →
      bumpStruct v .prerelease = ⟨v.major, v.minor, v.patch, some "alpha.0"⟩) :=
  bumpStruct_prerelease_spec v

/-- Claim C1, witness: scenario instances of the amended claim at
`1.0.1-alpha.0` (two-part shape) and `1.0.0` (no prerelease). -/
theorem claim_C1_amended_witness :
    bumpStruct ⟨1, 0, 1, some "alpha.0"⟩ .prerelease = ⟨1, 0, 1, some "alpha.1"⟩ ∧
    bumpStruct ⟨1, 0, 0, (none : Option String)⟩ .prerelease = ⟨1, 0, 1, some "alpha.0"⟩ := by
  constructor
  · have h := (claim_C1_amended ⟨1, 0, 1, some "alpha.0"⟩).2.1 "alpha.0"
      ['a', 'l', 'p', 'h', 'a'] ['0'] 0 rfl (by decide) (by decide)
    rw [h]; decide
  · exact (claim_C1_amended ⟨1, 0, 0, none⟩).1 rfl

/-- Claim C10: the shape test accepts any second part whose leading
characters `parseInt` to an integer; the parsed integer is incremented and
the entire second part replaced by it, with `(major, minor, patch)`
untouched. -/
theorem claim_C10_prerelease_int_prefix (v : Version) (p : String) (a b : List Char) (n : Int)
    (hp : v.prerelease = some p) (hsplit : splitOnDot p.data = [a, b])
    (hint : jsParseInt (String.mk b) = some n) :
    bumpStruct v .prerelease =
      ⟨v.major, v.minor, v.patch, some (String.mk a ++ "." ++ intToString (n + 1))⟩ :=
  (bumpStruct_prerelease_spec v).2.1 p a b n hp hsplit hint

/-- Claim C10, witness: the two inputs named by the claim,
`alpha.1abc ↦ alpha.2` and `alpha.-2 ↦ alpha.-1`. -/
theorem claim_C10_witness :
    bumpStruct ⟨1, 2, 3, some "alpha.1abc"⟩ .prerelease = ⟨1, 2, 3, some "alpha.2"⟩ ∧
    bumpStruct ⟨4, 5, 6, some "alpha.-2"⟩ .prerelease = ⟨4, 5, 6, some "alpha.-1"⟩ := by
  constructor
  · have h := claim_C10_prerelease_int_prefix ⟨1, 2, 3, some "alpha.1abc"⟩ "alpha.1abc"
      ['a', 'l', 'p', 'h', 'a'] ['1', 'a', 'b', 'c'] 1 rfl (by decide) (by decide)
    rw [h]; decide
  · have h := claim_C10_prerelease_int_prefix ⟨4, 5, 6, some "alpha.-2"⟩ "alpha.-2"
      ['a', 'l', 'p', 'h', 'a'] ['-', '2'] (-2) rfl (by decide) (by decide)
    rw [h]; decide

/-- Claim C9, counterexample: `createGitTag "1.0.1"` stages only the
manifest `package.json`; no command stages `src/index.ts`, so the claim
that both files are staged fails. -/
theorem claim_C9_counterexample :
    stagedPaths (createGitTag "1.0.1") = ["package.json"] ∧
    "src/index.ts" ∉ stagedPaths (createGitTag "1.0.1") := by decide

/-- Claim C9, amended: the commit/tag step stages only the manifest
`package.json` (the source file is not staged), creates a commit with
message `chore: bump version to <version>`, and creates the lightweight
tag `v<version>`. -/
theorem claim_C9_amended (version : String) :
    stagedPaths (createGitTag version) = ["package.json"] ∧
    ("git commit -m \"chore: bump version to " ++ version ++ "\"") ∈ createGitTag version ∧
    ("git tag v" ++ version) ∈ createGitTag version := by
  obtain ⟨r2, h2⟩ :
      ∃ r, ("git commit -m \"chore: bump version to " ++ version ++ "\"").data
        = 'g' :: 'i' :: 't' :: ' ' :: 'c' :: r := ⟨_, rfl⟩
  obtain ⟨r3, h3⟩ :
      ∃ r, ("git tag v" ++ version).data = 'g' :: 'i' :: 't' :: ' ' :: 't' :: r := ⟨_, rfl⟩
  refine ⟨?_, by simp [createGitTag], by simp [createGitTag]⟩
  simp [stagedPaths, createGitTag, List.filterMap_cons, h2, h3, gitAddArg]

/-- Claim C6: with the `--dry-run` flag set, a run leaves the whole world
(manifest and source file) untouched and issues no git command, whatever
the bump type and file contents are. -/
theorem claim_C6_dry_run (args : Args) (w : World) (h : args.dryRun = true) :
    (mainModel args w).world = w ∧ (mainModel args w).gitCmds = [] := by
  rcases args with ⟨_ | bt, ng, dr⟩
  · exact ⟨rfl, rfl⟩
  · cases h
    simp only [mainModel]
    repeat' split
    all_goals first
    | exact ⟨rfl, rfl⟩
    | exact absurd trivial (by assumption)

/-- Claim C6, witness: a concrete dry run of `patch` over manifest version
`1.2.3` changes nothing and issues no git command. -/
theorem claim_C6_witness :
    (mainModel ⟨some "patch", false, true⟩ ⟨"1.2.3", some "return \"1.2.3\";", some ""⟩).world
      = ⟨"1.2.3", some "return \"1.2.3\";", some ""⟩ ∧
    (mainModel ⟨some "patch", false, true⟩ ⟨"1.2.3", some "return \"1.2.3\";", some ""⟩).gitCmds
      = [] :=
  claim_C6_dry_run ⟨some "patch", false, true⟩ ⟨"1.2.3", some "return \"1.2.3\";", some ""⟩ rfl

/-- Claim C7: with a valid bump kind and a manifest version string that
does not parse, the run ends with exit code 1 reporting the
`Invalid version format` error, no file is written and no git command is
issued. -/
theorem claim_C7_abort_before_mutation (args : Args) (w : World) (bt : String)
    (hbt : args.bumpType = some bt) (hvalid : bt ∈ validBumpTypes)
    (hparse : parseVersion w.manifestVersion = none) :
    (mainModel args w).world = w ∧ (mainModel args w).gitCmds = [] ∧
    (mainModel args w).exitCode = 1 ∧
    (mainModel args w).error = some ("Invalid version format: " ++ w.manifestVersion) := by
  have hne1 : bt ≠ "help" := by rintro rfl; simp [validBumpTypes] at hvalid
  have hne2 : bt ≠ "current" := by rintro rfl; simp [validBumpTypes] at hvalid
  simp only [mainModel, hbt, if_neg hne1, if_neg hne2, if_pos hvalid]
  simp [bumpVersionStr, hparse]

/-- Claim C7, witness: scenario 6, manifest version `v1.0` with kind
`patch` aborts with the format error and mutates nothing. -/
theorem claim_C7_witness :
    (mainModel ⟨some "patch", false, false⟩ ⟨"v1.0", some "x", some ""⟩).world
      = ⟨"v1.0", some "x", some ""⟩ ∧
    (mainModel ⟨some "patch", false, false⟩ ⟨"v1.0", some "x", some ""⟩).gitCmds = [] ∧
    (mainModel ⟨some "patch", false, false⟩ ⟨"v1.0", some "x", some ""⟩).exitCode = 1 ∧
    (mainModel ⟨some "patch", false, false⟩ ⟨"v1.0", some "x", some ""⟩).error
      = some ("Invalid version format: " ++ "v1.0") :=
  claim_C7_abort_before_mutation ⟨some "patch", false, false⟩ ⟨"v1.0", some "x", some ""⟩
    "patch" rfl (by decide) (by decide)

/-- When no position of the list starts a match of the source-annotation
regex, the scan finds nothing. -/
theorem findMatch_eq_none (l : List Char) (h : ∀ j, matchLenAt (l.drop j) = none) :
    findMatch l = none := by
  induction l with
  | nil => rfl
  | cons c cs ih =>
    have h0 := h 0
    simp only [List.drop_zero] at h0
    have hrest : ∀ j, matchLenAt (cs.drop j) = none := by
      intro j
      have := h (j + 1)
      simpa using this
    simp only [findMatch, h0, ih hrest, Option.map_none']

/-- The scan returns the leftmost matching position together with its
match length. -/
theorem findMatch_spec (l : List Char) :
    ∀ i len, findMatch l = some (i, len) →
      matchLenAt (l.drop i) = some len ∧ ∀ j, j < i → matchLenAt (l.drop j) = none := by
  induction l with
  | nil => intro i len h; simp [findMatch] at h
  | cons c cs ih =>
    intro i len h
    rcases hm : matchLenAt (c :: cs) with _ | len0
    · rw [findMatch, hm] at h
      rcases hf : findMatch cs with _ | ⟨i1, len1⟩
      · rw [hf] at h; simp at h
      · rw [hf] at h
        simp only [Option.map_some'] at h
        obtain ⟨hi, hlen⟩ := Prod.mk.injEq .. ▸ Option.some.injEq .. ▸ h
        obtain ⟨h1, h2⟩ := ih i1 len1 hf
        subst hi hlen
        refine ⟨by simpa using h1, ?_⟩
        intro j hj
        cases j with
        | zero => simpa using hm
        | succ j => simpa using h2 j (by omega)
    · rw [findMatch, hm] at h
      obtain ⟨hi, hlen⟩ := Prod.mk.injEq .. ▸ Option.some.injEq .. ▸ h
      subst hi hlen
      exact ⟨by simpa using hm, fun j hj => absurd hj (Nat.not_lt_zero j)⟩

/-- Positions beyond the end of the list cannot start a match, so checking
every in-range position suffices. -/
theorem matchLenAt_drop_none_of_bounded (l : List Char)
    (h : ∀ j, j ≤ l.length → matchLenAt (l.drop j) = none) :
    ∀ j, matchLenAt (l.drop j) = none := by
  intro j
  by_cases hj : j ≤ l.length
  · exact h j hj
  · rw [List.drop_eq_nil_of_le (by omega)]
    rfl

/-- Claim C8: the source-annotation step is best-effort and local.  A
missing source file is skipped; a file with no match of the annotation
regex at any position keeps its content; and when matches exist only the
leftmost one is replaced by the canonical annotation carrying the new
version text, with every byte before and after that match unchanged. -/
theorem claim_C8_source_update (v c : String) :
    updateIndexTsOpt none v = none ∧
    ((∀ j, matchLenAt (c.data.drop j) = none) → updateIndexTs c v = c) ∧
    (∀ i len, findMatch c.data = some (i, len) →
      matchLenAt (c.data.drop i) = some len ∧
      (∀ j, j < i → matchLenAt (c.data.drop j) = none) ∧
      (updateIndexTs c v).data =
        c.data.take i ++ ("return \"" ++ v ++ "\";").data ++ c.data.drop (i + len)) := by
  refine ⟨rfl, ?_, ?_⟩
  · intro h
    unfold updateIndexTs
    rw [findMatch_eq_none c.data h]
  · intro i len h
    obtain ⟨h1, h2⟩ := findMatch_spec c.data i len h
    refine ⟨h1, h2, ?_⟩
    unfold updateIndexTs
    rw [h]

/-- Claim C8, witness: a file whose first annotation sits after two bytes
gets exactly that annotation rewritten (the second one survives), and a
file with no annotation is unchanged. -/
theorem claim_C8_witness :
    (updateIndexTs "ab return '1.0.0'; return \"2.2.2\";" "1.0.1").data
      = ("ab return \"1.0.1\"; return \"2.2.2\";").data ∧
    updateIndexTs "no annotation" "1.0.1" = "no annotation" := by
  constructor
  · have h := (claim_C8_source_update "1.0.1" "ab return '1.0.0'; return \"2.2.2\";").2.2
      3 15 (by decide)
    rw [h.2.2]
    decide
  · exact (claim_C8_source_update "1.0.1" "no annotation").2.1
      (matchLenAt_drop_none_of_bounded _ (by decide))

theorem string_data_append (a b : String) : (a ++ b).data = a.data ++ b.data := rfl

theorem isDigitCh_cases {c : Char} (h : isDigitCh c = true) :
    c = '0' ∨ c = '1' ∨ c = '2' ∨ c = '3' ∨ c = '4' ∨
    c = '5' ∨ c = '6' ∨ c = '7' ∨ c = '8' ∨ c = '9' := by
  have hcases := h
  simp only [isDigitCh, Bool.or_eq_true, decide_eq_true_eq] at hcases
  tauto

theorem digitChar_digitVal {c : Char} (h : isDigitCh c = true) :
    digitChar (digitVal c) = c := by
  rcases isDigitCh_cases h with rfl | rfl | rfl | rfl | rfl | rfl | rfl | rfl | rfl | rfl <;> decide

theorem digitVal_lt_ten {c : Char} (h : isDigitCh c = true) : digitVal c < 10 := by
  rcases isDigitCh_cases h with rfl | rfl | rfl | rfl | rfl | rfl | rfl | rfl | rfl | rfl <;> decide

theorem natToDigits_digitVal {c : Char} (h : isDigitCh c = true) :
    natToDigits (digitVal c) = [c] := by
  rcases isDigitCh_cases h with rfl | rfl | rfl | rfl | rfl | rfl | rfl | rfl | rfl | rfl <;> decide

theorem one_le_digitVal {c : Char} (h : isDigitCh c = true) (h0 : c ≠ '0') :
    1 ≤ digitVal c := by
  rcases isDigitCh_cases h with rfl | rfl | rfl | rfl | rfl | rfl | rfl | rfl | rfl | rfl <;>
    first | exact absurd rfl h0 | decide

theorem digitVal_digitChar {n : Nat} (h : n < 10) : digitVal (digitChar n) = n := by
  interval_cases n <;> decide

theorem isDigitCh_digitChar (n : Nat) : isDigitCh (digitChar n) = true := by
  unfold digitChar
  split <;> decide

theorem natToDigitsAux_congr : ∀ (f g n : Nat), n < f → n < g →
    natToDigitsAux f n = natToDigitsAux g n := by
  intro f
  induction f with
  | zero => intro g n hf; omega
  | succ f ih =>
    intro g n hf hg
    rcases g with _ | g
    · omega
    · simp only [natToDigitsAux]
      by_cases h : n < 10
      · simp [h]
      · simp only [h, if_false]
        rw [ih g (n / 10) (by omega) (by omega)]

theorem natToDigits_eq (n : Nat) :
    natToDigits n = if n < 10 then [digitChar n]
      else natToDigits (n / 10) ++ [digitChar (n % 10)] := by
  have hunfold : natToDigits n
      = if n < 10 then [digitChar n]
        else natToDigitsAux n (n / 10) ++ [digitChar (n % 10)] := rfl
  rw [hunfold]
  by_cases h : n < 10
  · simp [h]
  · simp only [h, if_false]
    rw [natToDigitsAux_congr n (n / 10 + 1) (n / 10) (by omega) (by omega)]
    rfl

theorem natToDigits_ne_nil (n : Nat) : natToDigits n ≠ [] := by
  rw [natToDigits_eq]
  by_cases h : n < 10 <;> simp [h]

theorem natToDigits_all_digits (n : Nat) : ∀ c ∈ natToDigits n, isDigitCh c = true := by
  induction n using Nat.strong_induction_on with
  | _ n ih =>
    rw [natToDigits_eq]
    by_cases h : n < 10
    · simp only [h, if_true]
      intro c hc
      simp only [List.mem_singleton] at hc
      subst hc
      exact isDigitCh_digitChar n
    · simp only [h, if_false]
      intro c hc
      rcases List.mem_append.mp hc with hc | hc
      · exact ih (n / 10) (by omega) c hc
      · simp only [List.mem_singleton] at hc
        subst hc
        exact isDigitCh_digitChar _

theorem digitsToNat_append (l : List Char) (c : Char) :
    digitsToNat (l ++ [c]) = 10 * digitsToNat l + digitVal c := by
  simp [digitsToNat, List.foldl_append]

theorem digitsToNat_natToDigits (n : Nat) : digitsToNat (natToDigits n) = n := by
  induction n using Nat.strong_induction_on with
  | _ n ih =>
    rw [natToDigits_eq]
    by_cases h : n < 10
    · simp only [h, if_true]
      simp [digitsToNat, digitVal_digitChar h]
    · simp only [h, if_false]
      rw [digitsToNat_append, ih (n / 10) (by omega), digitVal_digitChar (by omega)]
      omega

theorem le_digitsToNat_foldl : ∀ (t : List Char) (n : Nat),
    n ≤ t.foldl (fun m c => 10 * m + digitVal c) n := by
  intro t
  induction t with
  | nil => intro n; exact Nat.le_refl n
  | cons a t ih =>
    intro n
    simp only [List.foldl_cons]
    exact le_trans (by omega) (ih (10 * n + digitVal a))

theorem one_le_digitsToNat (c : Char) (t : List Char)
    (hd : isDigitCh c = true) (h0 : c ≠ '0') : 1 ≤ digitsToNat (c :: t) := by
  have h1 : 1 ≤ digitVal c := one_le_digitVal hd h0
  have h2 := le_digitsToNat_foldl t (digitVal c)
  simp only [digitsToNat, List.foldl_cons, Nat.mul_zero, Nat.zero_add]
  omega

theorem natToDigits_digitsToNat :
    ∀ d : List Char, d ≠ [] → (∀ c ∈ d, isDigitCh c = true) →
      (d = ['0'] ∨ d.head? ≠ some '0') →
      natToDigits (digitsToNat d) = d := by
  intro d
  induction d using List.reverseRecOn with
  | nil => intro h; exact absurd rfl h
  | append_singleton ds c ih =>
    intro _ hdig hlead
    rcases ds with _ | ⟨a, t⟩
    · have hc : isDigitCh c = true := hdig c (by simp)
      have h1 : digitsToNat [c] = digitVal c := by simp [digitsToNat]
      rw [List.nil_append, h1, natToDigits_digitVal hc]
    · have ha : isDigitCh a = true := hdig a (by simp)
      have hc : isDigitCh c = true := hdig c (by simp)
      have ha0 : a ≠ '0' := by
        rcases hlead with h | h
        · exfalso
          have hlen := congrArg List.length h
          simp [List.length_append] at hlen
        · simp only [List.cons_append, List.head?_cons, ne_eq, Option.some.injEq] at h
          exact h
      have hm : 1 ≤ digitsToNat (a :: t) := one_le_digitsToNat a t ha ha0
      have hv : digitVal c < 10 := digitVal_lt_ten hc
      rw [digitsToNat_append, natToDigits_eq]
      have hge : ¬(10 * digitsToNat (a :: t) + digitVal c < 10) := by omega
      simp only [hge, if_false]
      have hdiv : (10 * digitsToNat (a :: t) + digitVal c) / 10 = digitsToNat (a :: t) := by
        omega
      have hmod : (10 * digitsToNat (a :: t) + digitVal c) % 10 = digitVal c := by omega
      rw [hdiv, hmod, digitChar_digitVal hc,
        ih (List.cons_ne_nil a t) (fun x hx => hdig x (by simp [List.mem_cons] at hx ⊢; tauto))
          (Or.inr (by simp [ha0]))]

theorem takeWhile_all_append {p : Char → Bool} (r : List Char)
    (hr : ∀ c, r.head? = some c → p c = false) :
    ∀ d : List Char, (∀ c ∈ d, p c = true) →
      (d ++ r).takeWhile p = d ∧ (d ++ r).dropWhile p = r := by
  intro d
  induction d with
  | nil =>
    intro _
    rcases r with _ | ⟨a, t⟩
    · exact ⟨rfl, rfl⟩
    · have hpa := hr a rfl
      constructor
      · simp [List.takeWhile_cons, hpa]
      · simp [List.dropWhile_cons, hpa]
  | cons a d ih =>
    intro hd
    have hpa : p a = true := hd a (by simp)
    obtain ⟨h1, h2⟩ := ih (fun x hx => hd x (by simp [hx]))
    constructor
    · simp [List.takeWhile_cons, hpa, h1]
    · simp [List.dropWhile_cons, hpa, h2]

theorem string_mk_data (s : String) : String.mk s.data = s := rfl

theorem natToString_data (n : Nat) : (natToString n).data = natToDigits n := rfl

theorem isEmpty_false_of_ne_nil {l : List Char} (h : l ≠ []) : l.isEmpty = false := by
  cases l
  · exact absurd rfl h
  · rfl

theorem takeWhile_all_self {p : Char → Bool} (d : List Char) (hd : ∀ c ∈ d, p c = true) :
    d.takeWhile p = d ∧ d.dropWhile p = [] := by
  have h := takeWhile_all_append (p := p) [] (fun c hc => by simp at hc) d hd
  simpa using h

/-- The regex matches `d1.d2.d3` when the three groups are non-empty digit
runs: maximality of each greedy `\d+` holds because the group is followed
by a dot or the end of input. -/
theorem parseParts_append_nil (d1 d2 d3 : List Char)
    (h1 : d1 ≠ []) (h2 : d2 ≠ []) (h3 : d3 ≠ [])
    (hd1 : ∀ c ∈ d1, isDigitCh c = true) (hd2 : ∀ c ∈ d2, isDigitCh c = true)
    (hd3 : ∀ c ∈ d3, isDigitCh c = true) :
    parseParts (d1 ++ '.' :: (d2 ++ '.' :: d3)) = some (d1, d2, d3, none) := by
  have s1 := takeWhile_all_append (p := isDigitCh) ('.' :: (d2 ++ '.' :: d3))
    (fun c hc => by simp at hc; subst hc; decide) d1 hd1
  have s2 := takeWhile_all_append (p := isDigitCh) ('.' :: d3)
    (fun c hc => by simp at hc; subst hc; decide) d2 hd2
  have s3 := takeWhile_all_self (p := isDigitCh) d3 hd3
  simp only [parseParts, s1.1, s1.2, isEmpty_false_of_ne_nil h1, s2.1, s2.2,
    isEmpty_false_of_ne_nil h2, s3.1, s3.2, isEmpty_false_of_ne_nil h3, Bool.false_eq_true,
    if_false]

/-- The regex matches `d1.d2.d3-pre` when additionally the suffix after
the hyphen is non-empty and free of line terminators. -/
theorem parseParts_append_pre (d1 d2 d3 pre : List Char)
    (h1 : d1 ≠ []) (h2 : d2 ≠ []) (h3 : d3 ≠ [])
    (hd1 : ∀ c ∈ d1, isDigitCh c = true) (hd2 : ∀ c ∈ d2, isDigitCh c = true)
    (hd3 : ∀ c ∈ d3, isDigitCh c = true)
    (hpre : pre ≠ []) (hlt : ∀ c ∈ pre, isLineTerminator c = false) :
    parseParts (d1 ++ '.' :: (d2 ++ '.' :: (d3 ++ '-' :: pre)))
      = some (d1, d2, d3, some pre) := by
  have s1 := takeWhile_all_append (p := isDigitCh) ('.' :: (d2 ++ '.' :: (d3 ++ '-' :: pre)))
    (fun c hc => by simp at hc; subst hc; decide) d1 hd1
  have s2 := takeWhile_all_append (p := isDigitCh) ('.' :: (d3 ++ '-' :: pre))
    (fun c hc => by simp at hc; subst hc; decide) d2 hd2
  have s3 := takeWhile_all_append (p := isDigitCh) ('-' :: pre)
    (fun c hc => by simp at hc; subst hc; decide) d3 hd3
  have hall : pre.all (fun c => !isLineTerminator c) = true := by
    simp only [List.all_eq_true, Bool.not_eq_true']
    exact hlt
  simp only [parseParts, s1.1, s1.2, isEmpty_false_of_ne_nil h1, s2.1, s2.2,
    isEmpty_false_of_ne_nil h2, s3.1, s3.2, isEmpty_false_of_ne_nil h3,
    isEmpty_false_of_ne_nil hpre, hall, Bool.false_eq_true, if_false, if_true]

/-- Character-list form of the string `formatVersion` renders. -/
theorem formatVersion_data (v : Version) :
    (formatVersion v).data =
      natToDigits v.major ++ '.' :: (natToDigits v.minor ++ '.' :: (natToDigits v.patch ++
        (match v.prerelease with
         | some p => if p = "" then [] else '-' :: p.data
         | none => []))) := by
  have hdot : ("." : String).data = ['.'] := rfl
  have hdash : ("-" : String).data = ['-'] := rfl
  rcases v with ⟨M, m, pp, _ | pre⟩
  · simp [formatVersion, string_data_append, natToString_data, hdot]
  · by_cases hpre : pre = ""
    · simp [formatVersion, string_data_append, natToString_data, hdot, hpre]
    · simp [formatVersion, string_data_append, natToString_data, hdot, hdash, hpre]

/-- Inversion of a successful regex match: the input decomposes into the
captured groups with the constraints the pattern imposes. -/
theorem parseParts_inversion (cs d1 d2 d3 : List Char) (p : Option (List Char))
    (h : parseParts cs = some (d1, d2, d3, p)) :
    d1 ≠ [] ∧ d2 ≠ [] ∧ d3 ≠ [] ∧
    (∀ c ∈ d1, isDigitCh c = true) ∧ (∀ c ∈ d2, isDigitCh c = true) ∧
    (∀ c ∈ d3, isDigitCh c = true) ∧
    ((p = none ∧ cs = d1 ++ '.' :: (d2 ++ '.' :: d3)) ∨
     (∃ pre, p = some pre ∧ pre ≠ [] ∧ (∀ c ∈ pre, isLineTerminator c = false) ∧
       cs = d1 ++ '.' :: (d2 ++ '.' :: (d3 ++ '-' :: pre)))) := by
  simp only [parseParts] at h
  split at h
  · exact absurd h (by simp)
  · rename_i hne1
    split at h
    · rename_i r2 heq1
      split at h
      · exact absurd h (by simp)
      · rename_i hne2
        split at h
        · rename_i r4 heq2
          split at h
          · exact absurd h (by simp)
          · rename_i hne3
            split at h
            · rename_i heq3
              simp only [Option.some.injEq, Prod.mk.injEq] at h
              obtain ⟨e1, e2, e3, e4⟩ := h
              subst e1; subst e2; subst e3
              refine ⟨?_, ?_, ?_, ?_, ?_, ?_, Or.inl ⟨e4.symm, ?_⟩⟩
              · intro hnil; rw [hnil] at hne1; simp at hne1
              · intro hnil; rw [hnil] at hne2; simp at hne2
              · intro hnil; rw [hnil] at hne3; simp at hne3
              · exact fun c hc => List.mem_takeWhile_imp hc
              · exact fun c hc => List.mem_takeWhile_imp hc
              · exact fun c hc => List.mem_takeWhile_imp hc
              · conv_lhs => rw [(List.takeWhile_append_dropWhile isDigitCh cs).symm]
                rw [heq1]
                conv_lhs => rw [(List.takeWhile_append_dropWhile isDigitCh r2).symm]
                rw [heq2]
                conv_lhs => rw [(List.takeWhile_append_dropWhile isDigitCh r4).symm]
                rw [heq3, List.append_nil]
            · rename_i rest heq3
              split at h
              · exact absurd h (by simp)
              · rename_i hnerest
                split at h
                · rename_i hall
                  simp only [Option.some.injEq, Prod.mk.injEq] at h
                  obtain ⟨e1, e2, e3, e4⟩ := h
                  subst e1; subst e2; subst e3
                  refine ⟨?_, ?_, ?_, ?_, ?_, ?_,
                    Or.inr ⟨rest, e4.symm, ?_, ?_, ?_⟩⟩
                  · intro hnil; rw [hnil] at hne1; simp at hne1
                  · intro hnil; rw [hnil] at hne2; simp at hne2
                  · intro hnil; rw [hnil] at hne3; simp at hne3
                  · exact fun c hc => List.mem_takeWhile_imp hc
                  · exact fun c hc => List.mem_takeWhile_imp hc
                  · exact fun c hc => List.mem_takeWhile_imp hc
                  · intro hnil; rw [hnil] at hnerest; simp at hnerest
                  · intro c hc
                    have hc2 := List.all_eq_true.mp hall c hc
                    simpa using hc2
                  · conv_lhs => rw [(List.takeWhile_append_dropWhile isDigitCh cs).symm]
                    rw [heq1]
                    conv_lhs => rw [(List.takeWhile_append_dropWhile isDigitCh r2).symm]
                    rw [heq2]
                    conv_lhs => rw [(List.takeWhile_append_dropWhile isDigitCh r4).symm]
                    rw [heq3]
                · exact absurd h (by simp)
            · exact absurd h (by simp)
        · exact absurd h (by simp)
    · exact absurd h (by simp)

/-- Claim C3, counterexample: the Version `(1, 2, 3, "a\nb")` is valid in
the claim's sense (non-negative components, non-empty prerelease string),
but its rendering does not re-parse: the JavaScript regex `.` cannot match
the newline inside the prerelease, so the serialized form is rejected. -/
theorem claim_C3_counterexample :
    ("a\nb" : String) ≠ "" ∧
    parseVersion (formatVersion ⟨1, 2, 3, some "a\nb"⟩) = none := by decide

/-- Claim C3, amended: `parse (format v) = v` for every Version whose
prerelease is absent or a non-empty string containing none of the four
ECMAScript line terminators (the characters the regex `.` cannot match). -/
theorem claim_C3_roundtrip (v : Version)
    (h : v.prerelease = none ∨
      ∃ p, v.prerelease = some p ∧ p ≠ "" ∧ ∀ c ∈ p.data, isLineTerminator c = false) :
    parseVersion (formatVersion v) = some v := by
  rcases v with ⟨M, m, pp, _ | p⟩
  · have hdata : (formatVersion ⟨M, m, pp, none⟩).data
        = natToDigits M ++ '.' :: (natToDigits m ++ '.' :: natToDigits pp) := by
      have h0 := formatVersion_data ⟨M, m, pp, none⟩
      simpa using h0
    unfold parseVersion
    rw [hdata, parseParts_append_nil _ _ _ (natToDigits_ne_nil M) (natToDigits_ne_nil m)
      (natToDigits_ne_nil pp) (natToDigits_all_digits M) (natToDigits_all_digits m)
      (natToDigits_all_digits pp)]
    simp [digitsToNat_natToDigits]
  · have hcase : p ≠ "" ∧ ∀ c ∈ p.data, isLineTerminator c = false := by
      rcases h with h | ⟨q, hq, hqne, hqlt⟩
      · simp at h
      · simp only [Version.prerelease] at hq
        obtain rfl : p = q := by simpa using hq
        exact ⟨hqne, hqlt⟩
    obtain ⟨hpne, hplt⟩ := hcase
    have hpdne : p.data ≠ [] := by
      intro hnil
      apply hpne
      cases p
      exact congrArg String.mk hnil
    have hdata : (formatVersion ⟨M, m, pp, some p⟩).data
        = natToDigits M ++ '.' :: (natToDigits m ++ '.' :: (natToDigits pp ++ '-' :: p.data)) := by
      have h0 := formatVersion_data ⟨M, m, pp, some p⟩
      simpa [hpne] using h0
    unfold parseVersion
    rw [hdata, parseParts_append_pre _ _ _ _ (natToDigits_ne_nil M) (natToDigits_ne_nil m)
      (natToDigits_ne_nil pp) (natToDigits_all_digits M) (natToDigits_all_digits m)
      (natToDigits_all_digits pp) hpdne hplt]
    simp [digitsToNat_natToDigits, string_mk_data]

/-- Claim C3, witness: the spec's own example value round-trips. -/
theorem claim_C3_witness :
    parseVersion (formatVersion ⟨1, 2, 3, some "alpha.0"⟩) = some ⟨1, 2, 3, some "alpha.0"⟩ :=
  claim_C3_roundtrip ⟨1, 2, 3, some "alpha.0"⟩
    (Or.inr ⟨"alpha.0", rfl, by decide, by decide⟩)

/-- Claim C4, counterexample: the code accepts `1.2.3-a b` although the
suffix contains a space, which the spec's `(-[^\s]+)?` group forbids; the
code's `(.+)` admits every character except line terminators. -/
theorem claim_C4_counterexample :
    (parseVersion "1.2.3-a b").isSome = true ∧ specAccepts "1.2.3-a b" = false := by decide

/-- Claim C4, amended: parse accepts exactly the strings made of three
non-empty ASCII digit groups separated by single dots, optionally followed
by a hyphen and a non-empty suffix free of the four ECMAScript line
terminators (spaces and tabs are allowed in the suffix); every other
string is rejected whole — no partial parse. -/
theorem claim_C4_accepts_iff (s : String) :
    (parseVersion s).isSome = true ↔ CodeGrammar s := by
  constructor
  · intro h
    rcases hp : parseParts s.data with _ | ⟨d1, d2, d3, p⟩
    · simp [parseVersion, hp] at h
    · obtain ⟨h1, h2, h3, hd1, hd2, hd3, hrest⟩ := parseParts_inversion s.data d1 d2 d3 p hp
      rcases hrest with ⟨hpn, hcs⟩ | ⟨pre, hps, hpne, hplt, hcs⟩
      · exact ⟨d1, d2, d3, [], by simpa using hcs, h1, h2, h3, hd1, hd2, hd3, Or.inl rfl⟩
      · exact ⟨d1, d2, d3, '-' :: pre, by simpa using hcs, h1, h2, h3, hd1, hd2, hd3,
          Or.inr ⟨pre, rfl, hpne, hplt⟩⟩
  · rintro ⟨d1, d2, d3, suffix, hcs, h1, h2, h3, hd1, hd2, hd3, hsuf⟩
    rcases hsuf with rfl | ⟨pre, rfl, hpne, hplt⟩
    · have hpp : parseParts s.data = some (d1, d2, d3, none) := by
        rw [show s.data = d1 ++ '.' :: (d2 ++ '.' :: d3) by simpa using hcs]
        exact parseParts_append_nil d1 d2 d3 h1 h2 h3 hd1 hd2 hd3
      simp [parseVersion, hpp]
    · have hpp : parseParts s.data = some (d1, d2, d3, some pre) := by
        rw [show s.data = d1 ++ '.' :: (d2 ++ '.' :: (d3 ++ '-' :: pre)) by simpa using hcs]
        exact parseParts_append_pre d1 d2 d3 pre h1 h2 h3 hd1 hd2 hd3 hpne hplt
      simp [parseVersion, hpp]

/-- Claim C5, counterexample: the accepted string `01.0.0` (leading zero)
parses, but `parseInt` collapses `01` to `1`, so re-formatting yields
`1.0.0`, not the original string. -/
theorem claim_C5_counterexample :
    parseVersion "01.0.0" = some ⟨1, 0, 0, none⟩ ∧
    formatVersion ⟨1, 0, 0, none⟩ = "1.0.0" ∧
    ("1.0.0" : String) ≠ "01.0.0" := by decide

/-- Claim C5, amended: `format (parse s) = s` for every accepted string
whose three numeric groups are canonical decimal numerals (each group is
`0` itself or starts with a non-zero digit); accepted strings with leading
zeros do not round-trip. -/
theorem claim_C5_format_parse (s : String) (d1 d2 d3 : List Char) (p : Option (List Char))
    (hparse : parseParts s.data = some (d1, d2, d3, p))
    (c1 : d1 = ['0'] ∨ d1.head? ≠ some '0')
    (c2 : d2 = ['0'] ∨ d2.head? ≠ some '0')
    (c3 : d3 = ['0'] ∨ d3.head? ≠ some '0') :
    ∃ v, parseVersion s = some v ∧ formatVersion v = s := by
  obtain ⟨h1, h2, h3, hd1, hd2, hd3, hrest⟩ := parseParts_inversion s.data d1 d2 d3 p hparse
  have r1 := natToDigits_digitsToNat d1 h1 hd1 c1
  have r2 := natToDigits_digitsToNat d2 h2 hd2 c2
  have r3 := natToDigits_digitsToNat d3 h3 hd3 c3
  rcases hrest with ⟨rfl, hcs⟩ | ⟨pre, rfl, hpne, hplt, hcs⟩
  · refine ⟨⟨digitsToNat d1, digitsToNat d2, digitsToNat d3, none⟩,
      by simp [parseVersion, hparse], ?_⟩
    apply String.ext
    rw [formatVersion_data]
    simp only [r1, r2, r3]
    rw [List.append_nil, hcs]
  · have hmkne : String.mk pre ≠ "" := by
      intro he
      apply hpne
      have hd := congrArg String.data he
      simpa using hd
    refine ⟨⟨digitsToNat d1, digitsToNat d2, digitsToNat d3, some (String.mk pre)⟩,
      by simp [parseVersion, hparse], ?_⟩
    apply String.ext
    rw [formatVersion_data]
    simp only [r1, r2, r3, hmkne, if_false]
    rw [hcs]

/-- Claim C5, witness: the canonical accepted string `1.2.3-rc.1`
round-trips through parse and format. -/
theorem claim_C5_witness :
    ∃ v, parseVersion "1.2.3-rc.1" = some v ∧ formatVersion v = "1.2.3-rc.1" :=
  claim_C5_format_parse "1.2.3-rc.1" ['1'] ['2'] ['3'] (some ['r', 'c', '.', '1'])
    (by decide) (by decide) (by decide) (by decide)

end VersionScript
